import Mathlib

/-!
Verification of the Reel Assembly Orchestrator (`app/reels_maker.py`,
`app/prompt_gen.py`) of the reelsgenerator repository.

Durations are embedded as rationals (`ℚ`): the Python code computes with
floats, and the spec's timing statements are read under exact arithmetic.
External collaborators (video search, downloader, filesystem, speech
synthesizer, LLM chain) are embedded as explicit oracle parameters; a Python
exception raised by a collaborator is an `Except.error` value.
-/

namespace ReelsMaker

/-! ## Clip Duration Balancer (`ReelsMaker.start`, lines 269-299)

The Python loop:
```
tot_dur = 0
temp_videoclip = [FileClip(p, t=max_clip_duration) for p in video_paths]
final_clips = []
while tot_dur < video_duration:
    for clip in temp_videoclip:
        remaining_dur = video_duration - tot_dur
        subclip_duration = min(max_clip_duration, remaining_dur, clip.real_duration)
        subclip = FileClip(clip.filepath, t=subclip_duration).duplicate()
        final_clips.append(subclip)
        tot_dur += subclip_duration
        if tot_dur >= video_duration:
            break
```
We track the durations of the appended sub-clips (`final_clips` as a `List ℚ`)
and the accumulator `tot_dur`. The outer `while` is given explicit fuel (one
unit per full pass of the inner `for`): `none` means the fuel ran out with the
target still unreached, i.e. the Python loop is still running.
-/

/-- `max_clip_duration = 5` (line 273). -/
def maxClipDuration : ℚ := 5

/-- Modelled from the spec: `FileClip(p, t=cap).real_duration` is not under
`src/` (`app/base.py` is absent); per spec section 4.4 step 1, pre-trimming a
background resource of duration `d` to the cap yields `min d cap` ("a clip
shorter than the cap is used at its full length"). -/
def preTrim (cap d : ℚ) : ℚ := min d cap

/-- `subclip_duration = min(max_clip_duration, remaining_dur, clip.real_duration)`
(lines 285-288), with `remaining_dur = T - tot`. -/
def subclipDur (cap T tot d : ℚ) : ℚ := min cap (min (T - tot) d)

/-- One pass of the inner `for clip in temp_videoclip` loop (lines 284-299):
visits the pre-trimmed clips in order, appends each sub-clip duration, and
breaks as soon as the accumulator reaches the target `T`. Returns the updated
`(tot_dur, final_clips)`. -/
def innerLoop (cap T : ℚ) : List ℚ → ℚ → List ℚ → ℚ × List ℚ
  | [], tot, acc => (tot, acc)
  | d :: rest, tot, acc =>
    let sub := subclipDur cap T tot d
    if T ≤ tot + sub then (tot + sub, acc ++ [sub])
    else innerLoop cap T rest (tot + sub) (acc ++ [sub])

/-- The outer `while tot_dur < video_duration` loop (line 283), with fuel:
`some (tot, final)` once the condition fails, `none` if the fuel is exhausted
while the condition still holds. -/
def whileLoop (cap T : ℚ) (clips : List ℚ) : ℕ → ℚ → List ℚ → Option (ℚ × List ℚ)
  | 0, tot, acc => if tot < T then none else some (tot, acc)
  | fuel + 1, tot, acc =>
    if tot < T then
      let p := innerLoop cap T clips tot acc
      whileLoop cap T clips fuel p.1 p.2
    else some (tot, acc)

/-- The whole balancer on the raw background-clip durations `durs`
(lines 275-299): pre-trim each clip to the cap, then run the cycle loop from
`tot_dur = 0` with empty `final_clips`. -/
def balanceClips (cap T : ℚ) (durs : List ℚ) (fuel : ℕ) : Option (ℚ × List ℚ) :=
  whileLoop cap T (durs.map (preTrim cap)) fuel 0 []

/-! ## Background resource acquisition (`ReelsMaker.start`, lines 164-243)

The collaborators are oracles: `search` is `video_generator.get_video_url`,
`dl` is `download_resource`, `fs` is the filesystem (`os.path.exists` /
`os.path.getsize`, mapping a path to its byte size when the file exists).
A Python exception raised by a collaborator is an `Except.error` /
`SearchOutcome.raised` value. -/

/-- Outcome of one `get_video_url(search_term)` call: a raised exception, a
falsy result (`None` or the empty string), or a truthy URL. -/
inductive SearchOutcome where
  | raised (msg : String)
  | noResult
  | found (url : String)
deriving DecidableEq

/-- The curated search terms of the high-energy filler mode
(`sports_search_terms`, lines 108-117). -/
def sportsSearchTerms : List String :=
  ["basketball player dribbling close up",
   "soccer football action slow motion",
   "skateboarding tricks urban",
   "running athlete training",
   "tennis player serving",
   "boxing training punching bag",
   "cycling bike racing",
   "swimming pool underwater"]

/-- The term loop of `get_subway_surfers_videos` (lines 122-132): each search
runs inside `try/except`; a raised error or a falsy result is logged and
skipped, a found URL is appended. -/
def searchLoop (search : String → SearchOutcome) : List String → List String
  | [] => []
  | t :: ts =>
    match search t with
    | .found u => u :: searchLoop search ts
    | _ => searchLoop search ts

/-- `get_subway_surfers_videos` (lines 95-139): user-supplied videos are
returned as-is; otherwise at most `maxVideos` curated terms
(`sports_search_terms[:max_videos]`, with `max_videos = int(os.getenv("MAX_BG_VIDEOS", 8))`)
are searched, and an empty harvest raises `ValueError("No sports videos available")`. -/
def getSubwaySurfersVideos (userVideos : List String) (maxVideos : ℕ)
    (search : String → SearchOutcome) : Except String (List String) :=
  if userVideos = [] then
    let urls := searchLoop search (sportsSearchTerms.take maxVideos)
    if urls = [] then Except.error "No sports videos available" else Except.ok urls
  else Except.ok userVideos

/-- Python's `str.startswith`, embedded as a prefix test on the character
list of the string. -/
def strStartsWith (s pre : String) : Bool := pre.data.isPrefixOf s.data

/-- `video_source.startswith(("http://", "https://"))` (line 179). -/
def isRemote (s : String) : Bool :=
  strStartsWith s "http://" || strStartsWith s "https://"

/-- The post-download validation of the subway-surfers branch (lines 197-207):
an exception captured by `gather(..., return_exceptions=True)` is dropped, and
a downloaded path is kept only when the file exists and
`os.path.getsize(path) > 1024`. -/
def validateDownload (fs : String → Option ℕ) (r : Except String String) :
    Option String :=
  match r with
  | .error _ => none
  | .ok p =>
    match fs p with
    | some size => if 1024 < size then some p else none
    | none => none

/-- The subway-surfers acquisition branch (lines 174-209): local sources are
kept when they exist (no size check), remote sources are downloaded
concurrently with `return_exceptions=True` and validated; `valid_paths` lists
the surviving locals (in source order) then the validated downloads. -/
def subwayAcquire (fs : String → Option ℕ) (dl : String → Except String String)
    (sources : List String) : List String :=
  ((sources.filter fun s => !isRemote s).filter fun s => (fs s).isSome)
    ++ ((sources.filter isRemote).map dl).filterMap (validateDownload fs)

/-- The topic-search term loop (lines 223-231): `get_video_url` is awaited
with no exception handling, so a raised error propagates; a falsy result is
skipped (`continue`); found URLs are collected in order. -/
def collectUrls (search : String → SearchOutcome) : List String → Except String (List String)
  | [] => Except.ok []
  | t :: ts =>
    match search t with
    | .raised e => Except.error e
    | .noResult => collectUrls search ts
    | .found u =>
      match collectUrls search ts with
      | .error e => Except.error e
      | .ok us => Except.ok (u :: us)

/-- `asyncio.gather(*tasks)` without `return_exceptions` (line 239): all
downloads must succeed, and a raised download error propagates to the caller.
(The concurrent batch is embedded sequentially; which of several failures is
reported first does not matter to the claims.) -/
def gatherStrict (dl : String → Except String String) : List String → Except String (List String)
  | [] => Except.ok []
  | u :: us =>
    match dl u with
    | .error e => Except.error e
    | .ok p =>
      match gatherStrict dl us with
      | .error e => Except.error e
      | .ok ps => Except.ok (p :: ps)

/-- The topic-search acquisition up to `local_paths` (lines 223-239): search
the first `maxVideos` terms, then download every found URL. -/
def topicSearchLocalPaths (search : String → SearchOutcome)
    (dl : String → Except String String) (terms : List String) (maxVideos : ℕ) :
    Except String (List String) :=
  match collectUrls search (terms.take maxVideos) with
  | .error e => Except.error e
  | .ok urls => gatherStrict dl urls

/-- `video_paths.extend(set(local_paths))` (line 240): CPython iterates a
`set` of strings in an unspecified (hash-randomized) order, so the collapse is
a relation: an admissible output is any duplicate-free list with exactly the
same members. -/
def setCollapse (l out : List String) : Prop :=
  out.Nodup ∧ ∀ x, x ∈ out ↔ x ∈ l

/-- The background paths the topic-search branch hands to the rest of
`start` (the clip balancer): `video_paths` is empty in this branch, so the
result is exactly the collapsed download list. -/
def topicSearchVideoPaths (search : String → SearchOutcome)
    (dl : String → Except String String) (terms : List String) (maxVideos : ℕ)
    (out : List String) : Prop :=
  ∃ paths, topicSearchLocalPaths search dl terms maxVideos = Except.ok paths ∧
    setCollapse paths out

/-! ## Narration pipeline (`ReelsMaker.start`, lines 245-267)

For each sentence in order, `synth_generator.synth_speech(sentence)` is
awaited with no exception handling and its audio path appended to `data`;
the durations handed to `generate_subtitles` are the measured
`real_duration` of each audio clip, in the same order. -/

/-- The sentence loop (lines 248-254): sequential synthesis, any raised error
propagating immediately. -/
def synthSpeechAll (synth : String → Except String String) :
    List String → Except String (List String)
  | [] => Except.ok []
  | s :: rest =>
    match synth s with
    | .error e => Except.error e
    | .ok a =>
      match synthSpeechAll synth rest with
      | .error e => Except.error e
      | .ok as => Except.ok (a :: as)

/-- `durations=[item.synth_clip.real_duration for item in data]` (line 266),
with `realDuration` the measured duration oracle of an audio file. -/
def durationsOf (realDuration : String → ℚ) (audioPaths : List String) : List ℚ :=
  audioPaths.map realDuration

end ReelsMaker

namespace PromptGenerator

/-! ## `PromptGenerator.sentences_to_images` (`app/prompt_gen.py`, lines 228-283)

The method is decorated with
`@retry(stop=stop_after_attempt(3), wait=wait_fixed(5), ...)`; its body runs
the LLM chain (an oracle here, indexed by attempt number) and raises
`ValueError` when the parsed `image_prompts` count differs from the sentence
count, else returns `(sentences, image_prompts)`. -/

/-- One un-retried call of the body (lines 234-283): the oracle response is
either a raised error from the chain or a parsed prompt list, which must have
exactly one entry per sentence. -/
def sentencesToImagesOnce (sentences : List String)
    (resp : Except String (List String)) : Except String (List String × List String) :=
  match resp with
  | .error e => Except.error e
  | .ok prompts =>
    if prompts.length ≠ sentences.length then Except.error "count mismatch"
    else Except.ok (sentences, prompts)

/-- The `tenacity` retry driver with a fixed wait: `retries` further attempts
are allowed after the current one, `attempt` is the 1-based attempt number,
and `waited` accumulates the fixed wait spent between attempts. -/
def retryFixed {α : Type} (wait : ℕ) (call : ℕ → Except String α) :
    ℕ → ℕ → ℕ → Except String α × ℕ
  | 0, attempt, waited =>
    match call attempt with
    | .ok a => (Except.ok a, waited)
    | .error e => (Except.error e, waited)
  | n + 1, attempt, waited =>
    match call attempt with
    | .ok a => (Except.ok a, waited)
    | .error _ => retryFixed wait call n (attempt + 1) (waited + wait)

/-- `sentences_to_images` as decorated: `stop_after_attempt(3)` (two retries
after the first attempt) and `wait_fixed(5)`. -/
def sentencesToImages (sentences : List String)
    (oracle : ℕ → Except String (List String)) :
    Except String (List String × List String) × ℕ :=
  retryFixed 5 (fun attempt => sentencesToImagesOnce sentences (oracle attempt)) 2 1 0

end PromptGenerator

namespace ReelsMaker

example : balanceClips maxClipDuration 7 [3, 10] 1 = some (7, [3, 4]) := by
  norm_num [balanceClips, whileLoop, innerLoop, subclipDur, preTrim, maxClipDuration]

example : balanceClips maxClipDuration 12 [4] 3 = some (12, [4, 4, 4]) := by
  norm_num [balanceClips, whileLoop, innerLoop, subclipDur, preTrim, maxClipDuration]

/-! ### Invariants of the balancing loop -/

/-- Each sub-clip duration is bounded by the remaining need `T - tot`. -/
lemma subclipDur_le_remaining (cap T tot d : ℚ) : subclipDur cap T tot d ≤ T - tot :=
  le_trans (min_le_right _ _) (min_le_left _ _)

/-- Nonnegativity of one sub-clip duration. -/
lemma subclipDur_nonneg {cap T tot d : ℚ} (hcap : 0 ≤ cap) (htot : tot ≤ T)
    (hd : 0 ≤ d) : 0 ≤ subclipDur cap T tot d := by
  simp only [subclipDur, le_min_iff]
  exact ⟨hcap, by linarith, hd⟩

/-- The accumulator never exceeds the target during one inner pass. -/
lemma innerLoop_le (cap T : ℚ) :
    ∀ (clips : List ℚ) (tot : ℚ) (acc : List ℚ), tot ≤ T →
      (innerLoop cap T clips tot acc).1 ≤ T := by
  intro clips
  induction clips with
  | nil => intro tot acc h; simpa [innerLoop] using h
  | cons d rest ih =>
    intro tot acc h
    have hsub := subclipDur_le_remaining cap T tot d
    by_cases hbr : T ≤ tot + subclipDur cap T tot d
    · simp only [innerLoop, if_pos hbr]
      linarith
    · simp only [innerLoop, if_neg hbr]
      exact ih _ _ (by linarith)

/-- The accumulator is monotone over one inner pass. -/
lemma innerLoop_mono {cap T : ℚ} (hcap : 0 ≤ cap) :
    ∀ (clips : List ℚ) (tot : ℚ) (acc : List ℚ), tot ≤ T →
      (∀ d ∈ clips, 0 ≤ d) →
      tot ≤ (innerLoop cap T clips tot acc).1 := by
  intro clips
  induction clips with
  | nil => intro tot acc _ _; simp [innerLoop]
  | cons d rest ih =>
    intro tot acc htot hpos
    have hd : 0 ≤ d := hpos d (List.mem_cons_self _ _)
    have hsub : 0 ≤ subclipDur cap T tot d := subclipDur_nonneg hcap htot hd
    by_cases hbr : T ≤ tot + subclipDur cap T tot d
    · simp only [innerLoop, if_pos hbr]
      linarith
    · simp only [innerLoop, if_neg hbr]
      have hle : tot + subclipDur cap T tot d ≤ T := by
        have := subclipDur_le_remaining cap T tot d; linarith
      have := ih (tot + subclipDur cap T tot d) (acc ++ [subclipDur cap T tot d])
        hle (fun x hx => hpos x (List.mem_cons_of_mem _ hx))
      linarith

/-- The difference between the accumulator and the summed final-clip durations
is invariant over one inner pass: every quantity added to `tot_dur` is also
appended to `final_clips`. -/
lemma innerLoop_sum (cap T : ℚ) :
    ∀ (clips : List ℚ) (tot : ℚ) (acc : List ℚ),
      (innerLoop cap T clips tot acc).1 - (innerLoop cap T clips tot acc).2.sum
        = tot - acc.sum := by
  intro clips
  induction clips with
  | nil => intro tot acc; simp [innerLoop]
  | cons d rest ih =>
    intro tot acc
    by_cases hbr : T ≤ tot + subclipDur cap T tot d
    · simp only [innerLoop, if_pos hbr, List.sum_append, List.sum_cons, List.sum_nil]
      ring
    · simp only [innerLoop, if_neg hbr]
      rw [ih]
      simp only [List.sum_append, List.sum_cons, List.sum_nil]
      ring

/-- On exit of the `while` loop (a `some` result), the accumulator equals the
target exactly and the final-clip durations sum to it, provided the entry
accumulator does not already exceed the target. -/
lemma whileLoop_some_spec {cap T : ℚ} {clips : List ℚ} :
    ∀ (fuel : ℕ) (tot : ℚ) (acc : List ℚ) (r : ℚ × List ℚ), tot ≤ T →
      whileLoop cap T clips fuel tot acc = some r →
      r.1 = T ∧ r.1 - r.2.sum = tot - acc.sum := by
  intro fuel
  induction fuel with
  | zero =>
    intro tot acc r htot hr
    by_cases h : tot < T
    · simp [whileLoop, h] at hr
    · simp only [whileLoop, if_neg h] at hr
      cases hr
      exact ⟨le_antisymm htot (not_lt.mp h), by simp⟩
  | succ n ih =>
    intro tot acc r htot hr
    by_cases h : tot < T
    · simp only [whileLoop, if_pos h] at hr
      have hle : (innerLoop cap T clips tot acc).1 ≤ T := innerLoop_le cap T clips tot acc htot
      obtain ⟨h1, h2⟩ := ih _ _ _ hle hr
      exact ⟨h1, by rw [h2, innerLoop_sum]⟩
    · simp only [whileLoop, if_neg h] at hr
      cases hr
      exact ⟨le_antisymm htot (not_lt.mp h), by simp⟩

/-- Progress: a full inner pass either reaches the target or adds at least
`min cap δ` for any strictly positive clip duration `δ` in the list. -/
lemma innerLoop_progress {cap T δ : ℚ} (hcap : 0 < cap) (hδ : 0 < δ) :
    ∀ (clips : List ℚ) (tot : ℚ) (acc : List ℚ), (∀ d ∈ clips, 0 ≤ d) →
      δ ∈ clips → tot ≤ T →
      T ≤ (innerLoop cap T clips tot acc).1 ∨
        tot + min cap δ ≤ (innerLoop cap T clips tot acc).1 := by
  intro clips
  induction clips with
  | nil => intro tot acc _ hmem _; exact absurd hmem (List.not_mem_nil δ)
  | cons d rest ih =>
    intro tot acc hpos hmem htot
    have hd : 0 ≤ d := hpos d (List.mem_cons_self _ _)
    have hsub0 : 0 ≤ subclipDur cap T tot d := subclipDur_nonneg hcap.le htot hd
    have hsubr := subclipDur_le_remaining cap T tot d
    by_cases hbr : T ≤ tot + subclipDur cap T tot d
    · simp only [innerLoop, if_pos hbr]
      exact Or.inl hbr
    · simp only [innerLoop, if_neg hbr]
      have htot2 : tot + subclipDur cap T tot d ≤ T := by linarith
      rcases List.mem_cons.mp hmem with hdeq | hrest
      · -- the visit to δ itself occurs first; it contributes min cap δ
        subst hdeq
        have hkey : min cap δ ≤ subclipDur cap T tot δ := by
          rcases le_total cap (min (T - tot) δ) with h | h
          · rw [subclipDur, min_eq_left h]
            exact min_le_left _ _
          · rw [subclipDur, min_eq_right h]
            rcases le_total (T - tot) δ with h2 | h2
            · exfalso
              apply hbr
              rw [subclipDur, min_eq_right h, min_eq_left h2]
              linarith
            · rw [min_eq_right h2]
              exact min_le_right _ _
        have hmono := innerLoop_mono hcap.le rest (tot + subclipDur cap T tot δ)
          (acc ++ [subclipDur cap T tot δ]) htot2
          (fun x hx => hpos x (List.mem_cons_of_mem _ hx))
        exact Or.inr (by linarith)
      · rcases ih (tot + subclipDur cap T tot d) (acc ++ [subclipDur cap T tot d])
          (fun x hx => hpos x (List.mem_cons_of_mem _ hx)) hrest htot2 with h | h
        · exact Or.inl h
        · exact Or.inr (by linarith)

/-- Termination of the `while` loop: `k + 1` units of fuel suffice once
`T - tot ≤ k * min cap δ` for a strictly positive clip duration `δ`. -/
lemma whileLoop_term {cap T δ : ℚ} (hcap : 0 < cap) (hδ : 0 < δ)
    (clips : List ℚ) (hpos : ∀ d ∈ clips, 0 ≤ d) (hmem : δ ∈ clips) :
    ∀ (k : ℕ) (tot : ℚ) (acc : List ℚ), tot ≤ T → T - tot ≤ k * min cap δ →
      ∃ r, whileLoop cap T clips (k + 1) tot acc = some r := by
  intro k
  induction k with
  | zero =>
    intro tot acc htot hk
    have h : ¬ tot < T := by push_neg; simp at hk; linarith
    exact ⟨(tot, acc), by simp [whileLoop, if_neg h]⟩
  | succ n ih =>
    intro tot acc htot hk
    by_cases h : tot < T
    · simp only [whileLoop, if_pos h]
      have hm : 0 < min cap δ := lt_min hcap hδ
      have hle : (innerLoop cap T clips tot acc).1 ≤ T := innerLoop_le cap T clips tot acc htot
      rcases innerLoop_progress hcap hδ clips tot acc hpos hmem htot with hp | hp
      · exact ih _ _ hle (by nlinarith)
      · exact ih _ _ hle (by push_cast at hk ⊢; nlinarith)
    · exact ⟨(tot, acc), by simp [whileLoop, if_neg h]⟩

/-- With only zero-duration clips the inner pass leaves the accumulator
unchanged. -/
lemma innerLoop_zeros {cap T : ℚ} (hcap : 0 ≤ cap) :
    ∀ (clips : List ℚ) (tot : ℚ) (acc : List ℚ), (∀ d ∈ clips, d = 0) →
      tot < T → (innerLoop cap T clips tot acc).1 = tot := by
  intro clips
  induction clips with
  | nil => intro tot acc _ _; simp [innerLoop]
  | cons d rest ih =>
    intro tot acc hz htot
    have hd : d = 0 := hz d (List.mem_cons_self _ _)
    have hsub : subclipDur cap T tot d = 0 := by
      rw [subclipDur, hd,
        min_eq_right (show (0 : ℚ) ≤ T - tot by linarith), min_eq_right hcap]
    have hbr : ¬ T ≤ tot + subclipDur cap T tot d := by rw [hsub]; push_neg; linarith
    simp only [innerLoop, if_neg hbr]
    rw [hsub]
    simpa using ih tot (acc ++ [0]) (fun x hx => hz x (List.mem_cons_of_mem _ hx)) htot

/-- With only zero-duration clips and a positive target, the `while` loop
exhausts any amount of fuel: the Python loop never terminates. -/
lemma whileLoop_zeros {cap T : ℚ} {clips : List ℚ} (hcap : 0 ≤ cap)
    (hz : ∀ d ∈ clips, d = 0) :
    ∀ (fuel : ℕ) (tot : ℚ) (acc : List ℚ), tot < T →
      whileLoop cap T clips fuel tot acc = none := by
  intro fuel
  induction fuel with
  | zero => intro tot acc htot; simp [whileLoop, htot]
  | succ n ih =>
    intro tot acc htot
    simp only [whileLoop, if_pos htot]
    have h1 := innerLoop_zeros hcap clips tot acc hz htot
    have h2 : (innerLoop cap T clips tot acc).1 < T := by rw [h1]; exact htot
    exact ih _ _ h2

/-- The inner pass only appends to `final_clips`. -/
lemma innerLoop_append (cap T : ℚ) :
    ∀ (clips : List ℚ) (tot : ℚ) (acc : List ℚ),
      ∃ tail, (innerLoop cap T clips tot acc).2 = acc ++ tail := by
  intro clips
  induction clips with
  | nil => intro tot acc; exact ⟨[], by simp [innerLoop]⟩
  | cons d rest ih =>
    intro tot acc
    by_cases hbr : T ≤ tot + subclipDur cap T tot d
    · exact ⟨[subclipDur cap T tot d], by simp [innerLoop, if_pos hbr]⟩
    · obtain ⟨tail, htail⟩ := ih (tot + subclipDur cap T tot d)
        (acc ++ [subclipDur cap T tot d])
      exact ⟨subclipDur cap T tot d :: tail, by
        simp only [innerLoop, if_neg hbr, htail, List.append_assoc, List.singleton_append]⟩

end ReelsMaker

open ReelsMaker

/-- C1: for every non-empty list `D` of strictly positive narration segment
durations and every non-empty pool of strictly positive background clip
durations, the clip-balancing loop in `ReelsMaker.start` terminates and
returns sub-clips whose summed duration lies in `[D.sum, D.sum + 5)`. -/
theorem c1_balancer_covers_narration (D durs : List ℚ)
    (hD : D ≠ []) (hDpos : ∀ x ∈ D, 0 < x)
    (hdurs : durs ≠ []) (hdpos : ∀ d ∈ durs, 0 < d) :
    ∃ (fuel : ℕ) (tot : ℚ) (final : List ℚ),
      balanceClips maxClipDuration D.sum durs fuel = some (tot, final) ∧
      D.sum ≤ final.sum ∧ final.sum < D.sum + maxClipDuration := by
  have hT : 0 < D.sum := List.sum_pos D hDpos hD
  obtain ⟨d₀, hd₀⟩ := List.exists_mem_of_ne_nil durs hdurs
  have hcap : (0 : ℚ) < maxClipDuration := by norm_num [maxClipDuration]
  set δ : ℚ := preTrim maxClipDuration d₀ with hδdef
  have hδ : 0 < δ := lt_min (hdpos d₀ hd₀) hcap
  have hδmem : δ ∈ durs.map (preTrim maxClipDuration) := List.mem_map_of_mem _ hd₀
  have hpos : ∀ d ∈ durs.map (preTrim maxClipDuration), 0 ≤ d := by
    intro d hd
    obtain ⟨x, hx, rfl⟩ := List.mem_map.mp hd
    exact le_min (hdpos x hx).le hcap.le
  have hm : 0 < min maxClipDuration δ := lt_min hcap hδ
  obtain ⟨k, hk⟩ := exists_nat_ge (D.sum / min maxClipDuration δ)
  have hkm : D.sum - 0 ≤ k * min maxClipDuration δ := by
    rw [div_le_iff hm] at hk
    linarith
  obtain ⟨r, hr⟩ := whileLoop_term hcap hδ (durs.map (preTrim maxClipDuration))
    hpos hδmem k 0 [] hT.le hkm
  obtain ⟨h1, h2⟩ := whileLoop_some_spec (k + 1) 0 [] r hT.le hr
  refine ⟨k + 1, r.1, r.2, hr, ?_, ?_⟩
  · simp only [List.sum_nil] at h2
    have : r.2.sum = D.sum := by rw [← h1]; linarith
    rw [this]
  · simp only [List.sum_nil] at h2
    have : r.2.sum = D.sum := by rw [← h1]; linarith
    rw [this]
    linarith

/-- C2: each visit of the balancing loop to a clip of (pre-trimmed) duration
`d` with accumulated total `tot` appends a sub-clip of duration exactly
`min(maxClipDuration, T - tot, d)`; in particular with target `T = 7` and raw
clips `[3, 10]` the loop produces the sub-clip durations `[3, 4]`, summing
exactly to `7`. -/
theorem c2_subclip_min_formula :
    (∀ (cap T tot d : ℚ), subclipDur cap T tot d = min cap (min (T - tot) d)) ∧
    (∀ (T d : ℚ) (rest : List ℚ) (tot : ℚ) (acc : List ℚ),
      ((innerLoop maxClipDuration T (d :: rest) tot acc).2)[acc.length]?
        = some (subclipDur maxClipDuration T tot d)) ∧
    balanceClips maxClipDuration 7 [3, 10] 1 = some (7, [3, 4]) ∧
    (3 : ℚ) + 4 = 7 := by
  refine ⟨fun cap T tot d => rfl, ?_, ?_, by norm_num⟩
  · intro T d rest tot acc
    by_cases hbr : T ≤ tot + subclipDur maxClipDuration T tot d
    · simp only [innerLoop, if_pos hbr]
      rw [List.getElem?_append_right (le_refl acc.length)]
      simp
    · obtain ⟨tail, htail⟩ := innerLoop_append maxClipDuration T rest
        (tot + subclipDur maxClipDuration T tot d)
        (acc ++ [subclipDur maxClipDuration T tot d])
      simp only [innerLoop, if_neg hbr, htail]
      rw [List.append_assoc, List.getElem?_append_right (le_refl acc.length)]
      simp
  · norm_num [balanceClips, whileLoop, innerLoop, subclipDur, preTrim, maxClipDuration]

/-- C9: if at least one pre-trimmed clip duration is strictly positive
(durations being nonnegative), the balancing loop terminates for every target;
the positivity is necessary: with every clip duration zero and a positive
target, no amount of fuel makes the loop exit. -/
theorem c9_balancer_termination :
    (∀ (T : ℚ) (durs : List ℚ), durs ≠ [] → (∀ d ∈ durs, 0 ≤ d) →
      (∃ d ∈ durs, 0 < preTrim maxClipDuration d) →
      ∃ fuel r, balanceClips maxClipDuration T durs fuel = some r) ∧
    (∀ (T : ℚ) (durs : List ℚ), 0 < T → (∀ d ∈ durs, d = 0) →
      ∀ fuel, balanceClips maxClipDuration T durs fuel = none) := by
  constructor
  · intro T durs _ hnn ⟨d₀, hd₀, hδpos⟩
    have hcap : (0 : ℚ) < maxClipDuration := by norm_num [maxClipDuration]
    have hδmem : preTrim maxClipDuration d₀ ∈ durs.map (preTrim maxClipDuration) :=
      List.mem_map_of_mem _ hd₀
    have hpos : ∀ d ∈ durs.map (preTrim maxClipDuration), 0 ≤ d := by
      intro d hd
      obtain ⟨x, hx, rfl⟩ := List.mem_map.mp hd
      exact le_min (hnn x hx) hcap.le
    have hm : 0 < min maxClipDuration (preTrim maxClipDuration d₀) := lt_min hcap hδpos
    rcases le_or_lt T 0 with hT | hT
    · refine ⟨1, (0, []), ?_⟩
      have h : ¬ (0 : ℚ) < T := by linarith
      simp [balanceClips, whileLoop, if_neg h]
    · obtain ⟨k, hk⟩ := exists_nat_ge (T / min maxClipDuration (preTrim maxClipDuration d₀))
      have hkm : T - 0 ≤ k * min maxClipDuration (preTrim maxClipDuration d₀) := by
        rw [div_le_iff hm] at hk
        linarith
      obtain ⟨r, hr⟩ := whileLoop_term hcap hδpos _ hpos hδmem k 0 [] hT.le hkm
      exact ⟨k + 1, r, hr⟩
  · intro T durs hT hz fuel
    have hcap : (0 : ℚ) ≤ maxClipDuration := by norm_num [maxClipDuration]
    have hz' : ∀ d ∈ durs.map (preTrim maxClipDuration), d = 0 := by
      intro d hd
      obtain ⟨x, hx, rfl⟩ := List.mem_map.mp hd
      rw [preTrim, hz x hx, min_eq_left hcap]
    exact whileLoop_zeros hcap hz' fuel 0 [] hT

/-- C9 witness: instantiating the termination half at `T = 7`, clips `[3]`,
and the divergence half at `T = 1`, clips `[0]`, fuel `2`. -/
theorem c9_balancer_termination_witness :
    (∃ fuel r, balanceClips maxClipDuration 7 [3] fuel = some r) ∧
    balanceClips maxClipDuration 1 [0] 2 = none := by
  constructor
  · exact c9_balancer_termination.1 7 [3] (by simp) (by norm_num)
      ⟨3, by simp, by norm_num [preTrim, maxClipDuration]⟩
  · exact c9_balancer_termination.2 1 [0] (by norm_num) (by simp) 2

/-- C10: every sub-clip duration is bounded by the remaining need
`T - tot`, the accumulator never exceeds the target during the loop, and on
exit the final sub-clip durations sum to exactly the narration total. -/
theorem c10_exact_exit :
    (∀ (cap T tot d : ℚ), subclipDur cap T tot d ≤ T - tot) ∧
    (∀ (T : ℚ) (clips : List ℚ) (tot : ℚ) (acc : List ℚ), tot ≤ T →
      (innerLoop maxClipDuration T clips tot acc).1 ≤ T) ∧
    (∀ (T : ℚ) (durs : List ℚ) (fuel : ℕ) (tot : ℚ) (final : List ℚ),
      0 ≤ T →
      balanceClips maxClipDuration T durs fuel = some (tot, final) →
      tot = T ∧ final.sum = T) := by
  refine ⟨subclipDur_le_remaining, ?_, ?_⟩
  · intro T clips tot acc htot
    exact innerLoop_le maxClipDuration T clips tot acc htot
  · intro T durs fuel tot final hT hr
    obtain ⟨h1, h2⟩ := whileLoop_some_spec fuel 0 [] (tot, final) hT hr
    simp only [List.sum_nil] at h2
    exact ⟨h1, by simp at h1 h2 ⊢; linarith⟩

/-- C10 witness: instantiating the exit-exactness at `T = 7`, clips `[3, 10]`,
fuel `1`. -/
theorem c10_exact_exit_witness : (7 : ℚ) = 7 ∧ List.sum [(3 : ℚ), 4] = 7 :=
  c10_exact_exit.2.2 7 [3, 10] 1 7 [3, 4] (by norm_num)
    (by norm_num [balanceClips, whileLoop, innerLoop, subclipDur, preTrim, maxClipDuration])

/-- C1 witness: instantiating at `D = [7]`, clips `[3, 10]`. -/
theorem c1_balancer_covers_narration_witness :
    ∃ (fuel : ℕ) (tot : ℚ) (final : List ℚ),
      balanceClips maxClipDuration (List.sum [(7 : ℚ)]) [3, 10] fuel = some (tot, final) ∧
      List.sum [(7 : ℚ)] ≤ final.sum ∧ final.sum < List.sum [(7 : ℚ)] + maxClipDuration :=
  c1_balancer_covers_narration [7] [3, 10] (by simp) (by norm_num) (by simp) (by norm_num)

namespace ReelsMaker

/-- The filler-mode search loop consults the search oracle only on the listed
terms. -/
lemma searchLoop_congr (s s' : String → SearchOutcome) :
    ∀ l : List String, (∀ t ∈ l, s t = s' t) → searchLoop s l = searchLoop s' l := by
  intro l
  induction l with
  | nil => intro _; rfl
  | cons t ts ih =>
    intro h
    have ht := h t (List.mem_cons_self _ _)
    have hts := ih fun x hx => h x (List.mem_cons_of_mem _ hx)
    simp only [searchLoop, ht, hts]

/-- The filler-mode search loop keeps exactly the found URLs, in term order:
raised errors and empty results are skipped. -/
lemma searchLoop_eq_filterMap (s : String → SearchOutcome) :
    ∀ l : List String,
      searchLoop s l = l.filterMap fun t =>
        match s t with
        | .found u => some u
        | _ => none := by
  intro l
  induction l with
  | nil => rfl
  | cons t ts ih =>
    cases h : s t <;> simp only [searchLoop, h, ih, List.filterMap_cons]

end ReelsMaker

/-- C5: in high-energy filler mode with no user-supplied videos, only the first
`maxVideos` curated terms are consulted; a term whose search raises or yields
no result is skipped while found URLs are kept; and when no term yields a
URL the provider fails with the no-resources error. -/
theorem c5_filler_mode :
    (∀ (mv : ℕ) (s s' : String → SearchOutcome),
      (∀ t ∈ sportsSearchTerms.take mv, s t = s' t) →
      getSubwaySurfersVideos [] mv s = getSubwaySurfersVideos [] mv s') ∧
    (∀ (s : String → SearchOutcome) (l : List String),
      searchLoop s l = l.filterMap fun t =>
        match s t with
        | .found u => some u
        | _ => none) ∧
    (∀ (mv : ℕ) (s : String → SearchOutcome),
      searchLoop s (sportsSearchTerms.take mv) ≠ [] →
      getSubwaySurfersVideos [] mv s
        = Except.ok (searchLoop s (sportsSearchTerms.take mv))) ∧
    (∀ (mv : ℕ) (s : String → SearchOutcome),
      (∀ t ∈ sportsSearchTerms.take mv, ∀ u, s t ≠ .found u) →
      getSubwaySurfersVideos [] mv s = Except.error "No sports videos available") := by
  refine ⟨?_, searchLoop_eq_filterMap, ?_, ?_⟩
  · intro mv s s' h
    simp only [getSubwaySurfersVideos, searchLoop_congr s s' _ h]
  · intro mv s h
    simp [getSubwaySurfersVideos, if_neg h]
  · intro mv s h
    have hempty : searchLoop s (sportsSearchTerms.take mv) = [] := by
      rw [searchLoop_eq_filterMap]
      rw [List.filterMap_eq_nil_iff]
      intro t ht
      cases hst : s t with
      | found u => exact absurd hst (h t ht u)
      | raised e => rfl
      | noResult => rfl
    simp [getSubwaySurfersVideos, hempty]

/-- C5 witness: two found terms out of two searched, and an all-empty search. -/
theorem c5_filler_mode_witness :
    getSubwaySurfersVideos [] 2 (fun _ => .found "url") = Except.ok ["url", "url"] ∧
    getSubwaySurfersVideos [] 2 (fun _ => .noResult)
      = Except.error "No sports videos available" := by
  constructor
  · rw [c5_filler_mode.2.2.1 2 (fun _ => .found "url") (by decide)]
    rfl
  · exact c5_filler_mode.2.2.2 2 (fun _ => .noResult) (by intro t _ u h; cases h)

/-- C3 counterexample: in topic-search mode a single raised search error
(second term) aborts the whole acquisition even though the first term already
yielded a usable URL; likewise a single raised download error aborts it even
though another download succeeded. -/
theorem c3_counterexample :
    topicSearchLocalPaths
      (fun t => if t = "t1" then .found "u1" else .raised "boom")
      (fun u => Except.ok u) ["t1", "t2"] 10 = Except.error "boom" ∧
    topicSearchLocalPaths
      (fun t => if t = "t1" then .found "u1" else .found "u2")
      (fun u => if u = "u1" then Except.ok "p1" else Except.error "dlboom")
      ["t1", "t2"] 10 = Except.error "dlboom" :=
  ⟨rfl, rfl⟩

/-- C3 as amended: in topic-search mode a search returning no result is
skipped non-fatally (the found URLs of the other terms are all kept), but a
raised error in any single search, or in any single download, propagates and
aborts the acquisition. -/
theorem c3_amended :
    (∀ (search : String → SearchOutcome) (ts : List String),
      (∀ t ∈ ts, ∀ e, search t ≠ .raised e) →
      collectUrls search ts
        = Except.ok (ts.filterMap fun t =>
            match search t with
            | .found u => some u
            | _ => none)) ∧
    (∀ (search : String → SearchOutcome) (ts : List String) (t e : String),
      t ∈ ts → search t = .raised e →
      ∃ e', collectUrls search ts = Except.error e') ∧
    (∀ (dl : String → Except String String) (us : List String) (u e : String),
      u ∈ us → dl u = Except.error e →
      ∃ e', gatherStrict dl us = Except.error e') := by
  refine ⟨?_, ?_, ?_⟩
  · intro search ts
    induction ts with
    | nil => intro _; rfl
    | cons t ts ih =>
      intro h
      have hts := ih fun x hx => h x (List.mem_cons_of_mem _ hx)
      cases hst : search t with
      | raised e => exact absurd hst (h t (List.mem_cons_self _ _) e)
      | noResult => simp only [collectUrls, hst, hts, List.filterMap_cons]
      | found u => simp only [collectUrls, hst, hts, List.filterMap_cons]
  · intro search ts
    induction ts with
    | nil => intro t e h; exact absurd h (List.not_mem_nil t)
    | cons hd tl ih =>
      intro t e hmem hraised
      rcases List.mem_cons.mp hmem with rfl | htl
      · exact ⟨e, by simp only [collectUrls, hraised]⟩
      · cases hhd : search hd with
        | raised e' => exact ⟨e', by simp only [collectUrls, hhd]⟩
        | noResult =>
          obtain ⟨e', he'⟩ := ih t e htl hraised
          exact ⟨e', by simp only [collectUrls, hhd, he']⟩
        | found u =>
          obtain ⟨e', he'⟩ := ih t e htl hraised
          exact ⟨e', by simp only [collectUrls, hhd, he']⟩
  · intro dl us
    induction us with
    | nil => intro u e h; exact absurd h (List.not_mem_nil u)
    | cons hd tl ih =>
      intro u e hmem herr
      rcases List.mem_cons.mp hmem with rfl | htl
      · exact ⟨e, by simp only [gatherStrict, herr]⟩
      · cases hhd : dl hd with
        | error e' => exact ⟨e', by simp only [gatherStrict, hhd]⟩
        | ok p =>
          obtain ⟨e', he'⟩ := ih u e htl herr
          exact ⟨e', by simp only [gatherStrict, hhd, he']⟩

/-- C3 amended witness: a no-result term is skipped while the found URL
survives; a raised search aborts; a raised download aborts. -/
theorem c3_amended_witness :
    collectUrls (fun t => if t = "t1" then .found "u1" else .noResult) ["t1", "t2"]
      = Except.ok ["u1"] ∧
    (∃ e', collectUrls (fun _ => .raised "x") ["t"] = Except.error e') ∧
    (∃ e', gatherStrict (fun _ => Except.error "y") ["u"] = Except.error e') := by
  refine ⟨?_, ?_, ?_⟩
  · rw [c3_amended.1 (fun t => if t = "t1" then .found "u1" else .noResult) ["t1", "t2"]
      (by intro t ht e; fin_cases ht <;> simp)]
    rfl
  · exact c3_amended.2.1 (fun _ => .raised "x") ["t"] "t" "x" (by simp) rfl
  · exact c3_amended.2.2 (fun _ => Except.error "y") ["u"] "u" "y" (by simp) rfl

/-- C8: in topic-search mode the downloaded local paths are collapsed through
a `set` before reaching the clip balancer: every admissible balancer input is
duplicate-free (each path occurs at most once), duplicates are dropped
silently (two downloads of the same path yield a single occurrence), and the
download order is not preserved (both orders of the same two downloaded paths
are admissible outputs). -/
theorem c8_dedup_unordered :
    (∀ (search : String → SearchOutcome) (dl : String → Except String String)
        (terms : List String) (mv : ℕ) (out : List String),
      topicSearchVideoPaths search dl terms mv out → ∀ x, out.count x ≤ 1) ∧
    topicSearchVideoPaths (fun _ => .found "u") (fun _ => Except.ok "p")
      ["ta", "tb"] 10 ["p"] ∧
    (topicSearchVideoPaths (fun t => if t = "ta" then .found "a" else .found "b")
      (fun u => Except.ok u) ["ta", "tb"] 10 ["b", "a"] ∧
     topicSearchVideoPaths (fun t => if t = "ta" then .found "a" else .found "b")
      (fun u => Except.ok u) ["ta", "tb"] 10 ["a", "b"] ∧
     (["b", "a"] : List String) ≠ ["a", "b"]) := by
  refine ⟨?_, ?_, ?_, ?_, by decide⟩
  · intro search dl terms mv out h x
    obtain ⟨paths, _, hnodup, _⟩ := h
    exact List.nodup_iff_count_le_one.mp hnodup x
  · exact ⟨["p", "p"], rfl, by simp, by intro x; simp⟩
  · exact ⟨["a", "b"], rfl, by simp, by intro x; simp; tauto⟩
  · exact ⟨["a", "b"], rfl, by simp, by intro x; simp⟩

/-- C8 witness: instantiating the count bound at the duplicate-download input. -/
theorem c8_dedup_unordered_witness : List.count "p" ["p"] ≤ 1 :=
  c8_dedup_unordered.1 (fun _ => .found "u") (fun _ => Except.ok "p")
    ["ta", "tb"] 10 ["p"]
    ⟨["p", "p"], rfl, by simp, by intro x; simp⟩ "p"

/-- C4 counterexample: on the topic-search path a downloaded file of 10 bytes
(on a filesystem where `tiny.mp4` has size 10 < 1024) is handed onward to the
balancer, even though the 1 KiB validation used on the filler path would
reject exactly that file. -/
theorem c4_counterexample :
    topicSearchVideoPaths (fun _ => .found "u") (fun _ => Except.ok "tiny.mp4")
      ["t"] 10 ["tiny.mp4"] ∧
    validateDownload (fun p => if p = "tiny.mp4" then some 10 else none)
      (Except.ok "tiny.mp4") = none ∧
    (10 : ℕ) < 1024 :=
  ⟨⟨["tiny.mp4"], rfl, by simp, by intro x; simp⟩, rfl, by norm_num⟩

/-- C4 as amended: the exists-and-over-1-KiB validation applies only to the
downloads of the filler-video (subway-surfers) path — every path that branch
returns is either a pre-existing local source or a download of size
over 1024 bytes — while the topic-search path hands every successfully
downloaded path onward with no size validation at all. -/
theorem c4_amended :
    (∀ (fs : String → Option ℕ) (dl : String → Except String String)
        (sources : List String) (p : String),
      p ∈ subwayAcquire fs dl sources →
      (p ∈ sources ∧ isRemote p = false ∧ (fs p).isSome) ∨
        (∃ size, fs p = some size ∧ 1024 < size)) ∧
    (∀ (dl : String → Except String String) (us ps : List String),
      gatherStrict dl us = Except.ok ps →
      ∀ u ∈ us, ∃ p, dl u = Except.ok p ∧ p ∈ ps) := by
  constructor
  · intro fs dl sources p hp
    rcases List.mem_append.mp hp with hloc | hdl
    · left
      obtain ⟨hmem, hsome⟩ := List.mem_filter.mp hloc
      obtain ⟨hsrc, hlocal⟩ := List.mem_filter.mp hmem
      refine ⟨hsrc, ?_, hsome⟩
      simpa using hlocal
    · right
      obtain ⟨r, _, hval⟩ := List.mem_filterMap.mp hdl
      cases r with
      | error e => simp [validateDownload] at hval
      | ok q =>
        cases hfs : fs q with
        | none => simp [validateDownload, hfs] at hval
        | some size =>
          simp only [validateDownload, hfs] at hval
          by_cases hsz : 1024 < size
          · rw [if_pos hsz] at hval
            cases hval
            exact ⟨size, hfs, hsz⟩
          · rw [if_neg hsz] at hval
            cases hval
  · intro dl us
    induction us with
    | nil => intro ps _ u hu; exact absurd hu (List.not_mem_nil u)
    | cons hd tl ih =>
      intro ps hps u hu
      cases hdl : dl hd with
      | error e => rw [gatherStrict, hdl] at hps; cases hps
      | ok p =>
        rw [gatherStrict, hdl] at hps
        cases hg : gatherStrict dl tl with
        | error e => rw [hg] at hps; cases hps
        | ok ps' =>
          rw [hg] at hps
          cases hps
          rcases List.mem_cons.mp hu with rfl | htl
          · exact ⟨p, hdl, List.mem_cons_self _ _⟩
          · obtain ⟨q, hq, hqmem⟩ := ih ps' hg u htl
            exact ⟨q, hq, List.mem_cons_of_mem _ hqmem⟩

/-- C4 amended witness: an existing local source passes the filler branch, and
a downloaded path on the topic-search branch is handed onward. -/
theorem c4_amended_witness :
    (("local.mp4" ∈ (["local.mp4"] : List String) ∧ isRemote "local.mp4" = false ∧
        ((fun p => if p = "local.mp4" then some 2000 else none) "local.mp4").isSome) ∨
      (∃ size, (fun p => if p = "local.mp4" then some 2000 else none) "local.mp4"
        = some size ∧ 1024 < size)) ∧
    (∃ p, (Except.ok "p" : Except String String) = Except.ok p ∧
      p ∈ (["p"] : List String)) := by
  constructor
  · exact c4_amended.1 (fun p => if p = "local.mp4" then some 2000 else none)
      (fun _ => Except.ok "dl.mp4") ["local.mp4"] "local.mp4" (by decide)
  · exact c4_amended.2 (fun _ => Except.ok "p") ["u"] ["p"] rfl "u" (by simp)

/-- C7: the narration loop synthesizes exactly one segment per sentence,
sequentially and in sentence order — on success the audio list pairs up with
the sentence list index by index, so the measured-duration list handed to the
subtitle generator has the length of the sentence list — and a failure of any
single synthesis call makes the whole loop (hence the job) fail. -/
theorem c7_narration_pipeline :
    (∀ (synth : String → Except String String) (sents out : List String),
      synthSpeechAll synth sents = Except.ok out →
      out.length = sents.length ∧
      ∀ i, i < sents.length →
        ∃ s a, sents[i]? = some s ∧ synth s = Except.ok a ∧ out[i]? = some a) ∧
    (∀ (realDuration : String → ℚ) (synth : String → Except String String)
        (sents out : List String),
      synthSpeechAll synth sents = Except.ok out →
      (durationsOf realDuration out).length = sents.length) ∧
    (∀ (synth : String → Except String String) (sents : List String) (s : String),
      s ∈ sents → (∀ a, synth s ≠ Except.ok a) →
      ∀ out, synthSpeechAll synth sents ≠ Except.ok out) := by
  have hmain : ∀ (synth : String → Except String String) (sents out : List String),
      synthSpeechAll synth sents = Except.ok out →
      out.length = sents.length ∧
      ∀ i, i < sents.length →
        ∃ s a, sents[i]? = some s ∧ synth s = Except.ok a ∧ out[i]? = some a := by
    intro synth sents
    induction sents with
    | nil =>
      intro out h
      cases h
      exact ⟨rfl, fun i hi => absurd hi (by simp)⟩
    | cons hd tl ih =>
      intro out h
      cases hs : synth hd with
      | error e => rw [synthSpeechAll, hs] at h; cases h
      | ok a =>
        rw [synthSpeechAll, hs] at h
        cases ht : synthSpeechAll synth tl with
        | error e => rw [ht] at h; cases h
        | ok as =>
          rw [ht] at h
          cases h
          obtain ⟨hlen, hidx⟩ := ih as ht
          refine ⟨by simp [hlen], ?_⟩
          intro i hi
          cases i with
          | zero => exact ⟨hd, a, by simp, hs, by simp⟩
          | succ j =>
            obtain ⟨s, b, h1, h2, h3⟩ := hidx j (by simpa using hi)
            exact ⟨s, b, by simpa using h1, h2, by simpa using h3⟩
  refine ⟨hmain, ?_, ?_⟩
  · intro realDuration synth sents out h
    rw [durationsOf, List.length_map]
    exact (hmain synth sents out h).1
  · intro synth sents
    induction sents with
    | nil => intro s hs _ _ _; exact absurd hs (List.not_mem_nil s)
    | cons hd tl ih =>
      intro s hs hfail out h
      cases hhd : synth hd with
      | error e => rw [synthSpeechAll, hhd] at h; cases h
      | ok a =>
        rcases List.mem_cons.mp hs with rfl | htl
        · exact hfail a hhd
        · rw [synthSpeechAll, hhd] at h
          cases ht : synthSpeechAll synth tl with
          | error e => rw [ht] at h; cases h
          | ok as => exact ih s htl hfail as ht

/-- C7 witness: two sentences synthesize to two audio paths in order, and a
failing synthesizer makes the loop fail. -/
theorem c7_narration_pipeline_witness :
    ((["a1", "a2"] : List String).length = (["s1", "s2"] : List String).length ∧
      ∀ i, i < (["s1", "s2"] : List String).length →
        ∃ s a, (["s1", "s2"] : List String)[i]? = some s ∧
          (fun t => Except.ok ("a" ++ t.drop 1) : String → Except String String) s
            = Except.ok a ∧
          (["a1", "a2"] : List String)[i]? = some a) ∧
    ∀ out, synthSpeechAll (fun _ => Except.error "synth down") ["s1"]
      ≠ Except.ok out := by
  constructor
  · exact c7_narration_pipeline.1 (fun t => Except.ok ("a" ++ t.drop 1))
      ["s1", "s2"] ["a1", "a2"] (by rfl)
  · exact fun out => c7_narration_pipeline.2.2 (fun _ => Except.error "synth down")
      ["s1"] "s1" (by simp) (by intro a h; cases h) out

/-- The retry driver consults only attempts `attempt` through
`attempt + retries`. -/
lemma retryFixed_congr {α : Type} {wait : ℕ} {c c' : ℕ → Except String α} :
    ∀ (n attempt waited : ℕ), (∀ k, attempt ≤ k → k ≤ attempt + n → c k = c' k) →
      PromptGenerator.retryFixed wait c n attempt waited
        = PromptGenerator.retryFixed wait c' n attempt waited := by
  intro n
  induction n with
  | zero =>
    intro attempt waited h
    rw [PromptGenerator.retryFixed, PromptGenerator.retryFixed,
      h attempt le_rfl (by omega)]
  | succ m ih =>
    intro attempt waited h
    rw [PromptGenerator.retryFixed, PromptGenerator.retryFixed,
      h attempt le_rfl (by omega)]
    cases hc : c' attempt with
    | ok a => simp [hc]
    | error e =>
      simp only [hc]
      exact ih (attempt + 1) (waited + wait) fun k hk1 hk2 => h k (by omega) (by omega)

/-- C6: `sentences_to_images` retries on a count mismatch (or chain error)
with a fixed 5-second wait between attempts and at most 3 total attempts:
a successful result always carries exactly one description per sentence; if
attempts 1 and 2 fail and attempt 3 returns a matching count, the call
succeeds after two 5-second waits; if all 3 attempts fail, an error
propagates after the same two waits; and attempts beyond the third are never
consulted. -/
theorem c6_retry_policy :
    (∀ (sents : List String) (oracle : ℕ → Except String (List String))
        (out : List String × List String) (w : ℕ),
      PromptGenerator.sentencesToImages sents oracle = (Except.ok out, w) →
      out.1 = sents ∧ out.2.length = sents.length) ∧
    (∀ (sents : List String) (oracle : ℕ → Except String (List String))
        (prompts : List String),
      (∃ e, PromptGenerator.sentencesToImagesOnce sents (oracle 1) = Except.error e) →
      (∃ e, PromptGenerator.sentencesToImagesOnce sents (oracle 2) = Except.error e) →
      oracle 3 = Except.ok prompts → prompts.length = sents.length →
      PromptGenerator.sentencesToImages sents oracle
        = (Except.ok (sents, prompts), 10)) ∧
    (∀ (sents : List String) (oracle : ℕ → Except String (List String)),
      (∀ k, 1 ≤ k → k ≤ 3 →
        ∃ e, PromptGenerator.sentencesToImagesOnce sents (oracle k) = Except.error e) →
      ∃ e, PromptGenerator.sentencesToImages sents oracle = (Except.error e, 10)) ∧
    (∀ (sents : List String) (oracle oracle' : ℕ → Except String (List String)),
      (∀ k, k ≤ 3 → oracle k = oracle' k) →
      PromptGenerator.sentencesToImages sents oracle
        = PromptGenerator.sentencesToImages sents oracle') := by
  have honce : ∀ (sents prompts : List String),
      prompts.length = sents.length →
      PromptGenerator.sentencesToImagesOnce sents (Except.ok prompts)
        = Except.ok (sents, prompts) := by
    intro sents prompts hlen
    simp [PromptGenerator.sentencesToImagesOnce, hlen]
  have hok : ∀ (sents : List String) (resp : Except String (List String))
      (out : List String × List String),
      PromptGenerator.sentencesToImagesOnce sents resp = Except.ok out →
      out.1 = sents ∧ out.2.length = sents.length := by
    intro sents resp out h
    cases resp with
    | error e => simp [PromptGenerator.sentencesToImagesOnce] at h
    | ok prompts =>
      simp only [PromptGenerator.sentencesToImagesOnce] at h
      by_cases hlen : prompts.length ≠ sents.length
      · rw [if_pos hlen] at h; cases h
      · rw [if_neg hlen] at h
        cases h
        exact ⟨rfl, not_not.mp hlen⟩
  refine ⟨?_, ?_, ?_, ?_⟩
  · intro sents oracle out w h
    rw [PromptGenerator.sentencesToImages] at h
    rcases h1 : PromptGenerator.sentencesToImagesOnce sents (oracle 1) with e1 | o1
    · rcases h2 : PromptGenerator.sentencesToImagesOnce sents (oracle 2) with e2 | o2
      · rcases h3 : PromptGenerator.sentencesToImagesOnce sents (oracle 3) with e3 | o3
        · simp [PromptGenerator.retryFixed, h1, h2, h3] at h
        · simp [PromptGenerator.retryFixed, h1, h2, h3] at h
          exact h.1 ▸ hok sents (oracle 3) o3 h3
      · simp [PromptGenerator.retryFixed, h1, h2] at h
        exact h.1 ▸ hok sents (oracle 2) o2 h2
    · simp [PromptGenerator.retryFixed, h1] at h
      exact h.1 ▸ hok sents (oracle 1) o1 h1
  · intro sents oracle prompts ⟨e1, h1⟩ ⟨e2, h2⟩ h3 hlen
    have h3' : PromptGenerator.sentencesToImagesOnce sents (oracle 3)
        = Except.ok (sents, prompts) := by rw [h3]; exact honce sents prompts hlen
    simp [PromptGenerator.sentencesToImages, PromptGenerator.retryFixed, h1, h2, h3']
  · intro sents oracle hall
    obtain ⟨e1, h1⟩ := hall 1 (by norm_num) (by norm_num)
    obtain ⟨e2, h2⟩ := hall 2 (by norm_num) (by norm_num)
    obtain ⟨e3, h3⟩ := hall 3 (by norm_num) (by norm_num)
    exact ⟨e3, by simp [PromptGenerator.sentencesToImages, PromptGenerator.retryFixed,
      h1, h2, h3]⟩
  · intro sents oracle oracle' h
    rw [PromptGenerator.sentencesToImages, PromptGenerator.sentencesToImages]
    apply retryFixed_congr
    intro k h1k hk3
    rw [h k (by omega)]

/-- C6 witness: Scenario C of the spec — mismatched counts on attempts 1 and
2 (one prompt for two sentences), a matching count on attempt 3 — succeeds
with two descriptions after two 5-second waits; an always-mismatching oracle
fails. -/
theorem c6_retry_policy_witness :
    PromptGenerator.sentencesToImages ["s1", "s2"]
      (fun att => if att ≤ 2 then Except.ok ["only one"] else Except.ok ["d1", "d2"])
      = (Except.ok (["s1", "s2"], ["d1", "d2"]), 10) ∧
    (∃ e, PromptGenerator.sentencesToImages ["s1", "s2"] (fun _ => Except.ok ["only one"])
      = (Except.error e, 10)) := by
  constructor
  · exact c6_retry_policy.2.1 ["s1", "s2"]
      (fun att => if att ≤ 2 then Except.ok ["only one"] else Except.ok ["d1", "d2"])
      ["d1", "d2"] ⟨"count mismatch", by rfl⟩ ⟨"count mismatch", by rfl⟩
      (by norm_num) (by rfl)
  · exact c6_retry_policy.2.2.1 ["s1", "s2"] (fun _ => Except.ok ["only one"])
      (fun k _ _ => ⟨"count mismatch", by rfl⟩)
